import Mathlib

/-!
# Verification of the product-catalog backend

A shallow embedding of the Express/Mongoose product-catalog server and its
variants (the plain JSON CRUD server, the multipart/Cloudinary upload
variant, and the category-aware variant), together with proofs of the
behavioural properties stated in the specification.

Conventions of the embedding:
* Mongo collections are lists of documents; product documents are stored
  together with their store-assigned identifier (a natural number).
* JavaScript values that may be `undefined` are `Option`s; `none` models
  an absent / `undefined` value.
* The external upload service is an oracle: each file's upload outcome is
  given as `Option String` (`some url` = resolved with `secure_url`,
  `none` = rejected).  `Promise.all` is the all-or-nothing join.
* Numbers that the server merely passes through (prices, positions) are
  modelled as `Int`.
-/

namespace Catalog

/-! ## Data model (schemas of `server.js` and the multipart variant) -/

/-- An embedded variant subdocument: `{ size, price, image }`. -/
structure Variant where
  size : String
  price : Option Int
  image : Option String
  deriving DecidableEq, Repr

/-- A persisted product document of the simple / multipart schema:
`{ name, category, description, price, img, images, variants }`.
`name` and `category` are `required` and hence present on every saved
document; the remaining scalars are optional.  Mongoose defaults the
`variants` array to `[]` when the constructor receives `undefined`. -/
structure ProductDoc where
  name : String
  category : String
  description : Option String
  price : Option Int
  img : Option String
  images : List String
  variants : List Variant
  deriving DecidableEq, Repr

/-- The product store of the simple / multipart variant: documents paired
with their store-assigned identifier, plus the next fresh identifier. -/
structure SimpleDB where
  products : List (Nat × ProductDoc)
  nextId : Nat
  deriving DecidableEq, Repr

/-! ## JavaScript string primitives

The handlers route uploaded files by parsing their form field names with
`String.prototype.startsWith`, `String.prototype.split('_')` and
`parseInt`.  These are embedded structurally on `List Char`. -/

/-- Embeds `String.prototype.split('_')`: splits on every underscore,
keeping empty pieces exactly as JavaScript does (`''.split('_') = ['']`,
`'a_'.split('_') = ['a','']`). -/
def splitUnderscore : List Char → List (List Char)
  | [] => [[]]
  | c :: cs =>
    let r := splitUnderscore cs
    if c = '_' then [] :: r
    else
      match r with
      | [] => [[c]]
      | g :: gs => (c :: g) :: gs

/-- Value of a decimal digit character, `none` otherwise. -/
def decDigit (c : Char) : Option Nat :=
  if '0' ≤ c ∧ c ≤ '9' then some (c.toNat - 48) else none

/-- Value of a hexadecimal digit character, `none` otherwise. -/
def hexDigit (c : Char) : Option Nat :=
  if '0' ≤ c ∧ c ≤ '9' then some (c.toNat - 48)
  else if 'a' ≤ c ∧ c ≤ 'f' then some (c.toNat - 97 + 10)
  else if 'A' ≤ c ∧ c ≤ 'F' then some (c.toNat - 65 + 10)
  else none

/-- Reads the longest prefix of digits (under `digit`) and returns its
value in the given base; `none` when there is no leading digit, matching
`parseInt`'s `NaN`. -/
def takeDigits (digit : Char → Option Nat) (base : Nat) (cs : List Char) : Option Nat :=
  let ds := cs.takeWhile fun c => (digit c).isSome
  if ds.isEmpty then none
  else some (ds.foldl (fun acc c => acc * base + ((digit c).getD 0)) 0)

/-- Embeds JavaScript `parseInt(s)` (radix argument omitted): skips leading
whitespace, reads an optional sign, autodetects a `0x`/`0X` prefix as
hexadecimal, then reads the longest digit prefix; `none` models `NaN`. -/
def jsParseInt (s : List Char) : Option Int :=
  let cs := s.dropWhile fun c => c = ' ' ∨ c = '\t' ∨ c = '\n' ∨ c = '\r'
  let signed : Int × List Char :=
    match cs with
    | '-' :: rest => (-1, rest)
    | '+' :: rest => (1, rest)
    | _ => (1, cs)
  let mag : Option Nat :=
    match signed.2 with
    | '0' :: 'x' :: rest => takeDigits hexDigit 16 rest
    | '0' :: 'X' :: rest => takeDigits hexDigit 16 rest
    | _ => takeDigits decDigit 10 signed.2
  mag.map fun n => signed.1 * (n : Int)

/-- Embeds `field.startsWith('variant_image_')`. -/
def isVariantImageField (field : String) : Bool :=
  "variant_image_".data.isPrefixOf field.data

/-- Embeds `parseInt(originalField.split('_')[2])`: the third piece of the field
name split on underscores, parsed as an integer.  `none` models `NaN`
(no third piece — `parseInt(undefined)` — or a piece with no leading
digits). -/
def parseVariantIndex (field : String) : Option Int :=
  match (splitUnderscore field.data).get? 2 with
  | none => none
  | some piece => jsParseInt piece

/-! ## Routing uploaded URLs back to their slots -/

/-- Performs `variants[i].image = url`, leaving the list unchanged when `i` is out
of range (JavaScript's `variants[variantIndex]` is `undefined` then, and
the handler skips the assignment). -/
def setVariantImage (url : String) : List Variant → Nat → List Variant
  | [], _ => []
  | v :: vs, 0 => { v with image := some url } :: vs
  | v :: vs, n + 1 => v :: setVariantImage url vs n

/-- The mutable state of the `uploadResults.forEach` loop: the main image
URL list being pushed to and the variants array being patched. -/
structure RouteAcc where
  mainImages : List String
  variants : List Variant
  deriving DecidableEq, Repr

/-- One iteration of the `forEach` over upload results: an `images` file
is pushed onto the main list; a `variant_image_<i>` file patches
`variants[i].image` when `variants[i]` exists; anything else is ignored. -/
def routeOne (acc : RouteAcc) (field : String) (url : String) : RouteAcc :=
  if field = "images" then
    { acc with mainImages := acc.mainImages ++ [url] }
  else if isVariantImageField field then
    match parseVariantIndex field with
    | some i =>
      if 0 ≤ i ∧ i.toNat < acc.variants.length then
        { acc with variants := setVariantImage url acc.variants i.toNat }
      else acc
    | none => acc
  else acc

/-- Folds `routeOne` over a list of (field name, resolved URL) pairs. -/
def routeFold (acc : RouteAcc) (l : List (String × String)) : RouteAcc :=
  l.foldl (fun a p => routeOne a p.1 p.2) acc

/-- The whole `forEach` over `uploadResults`, pairing each resolved URL
with the field name of the file at the same index (`files[index].fieldname`). -/
def routeUploads (fields : List String) (urls : List String)
    (mainImages0 : List String) (variants0 : List Variant) : RouteAcc :=
  routeFold ⟨mainImages0, variants0⟩ (fields.zip urls)

/-! ## `Promise.all` over the uploads -/

/-- Models `Promise.all` over the per-file upload outcomes: resolves with the
URLs in input order when every upload resolved, rejects as soon as any
upload rejected. -/
def promiseAll : List (Option String) → Option (List String)
  | [] => some []
  | none :: _ => none
  | some u :: rs =>
    match promiseAll rs with
    | some us => some (u :: us)
    | none => none

/-- One settlement step of the in-flight uploads: the upload of file `i`
completes and fills slot `i` of the results array with its URL. -/
def fillSlot (u : Nat → String) (slots : List (Option String)) (i : Nat) :
    List (Option String) :=
  slots.set i (some (u i))

/-- Runs the completions in the order given by `sched`. -/
def completeUploads (u : Nat → String) (sched : List Nat)
    (slots : List (Option String)) : List (Option String) :=
  sched.foldl (fillSlot u) slots

/-- The results array assembled by `Promise.all` for `n` uploads whose
URLs are `u 0, …, u (n-1)`, when the uploads complete in the order
`sched`: starting from all-pending slots, each completion writes its own
slot. -/
def promiseAllJoin (n : Nat) (u : Nat → String) (sched : List Nat) :
    List (Option String) :=
  completeUploads u sched (List.replicate n none)

/-! ## The multipart create handler (`POST /api/products`, upload variant)

The request carries the destructured text fields of the form
(`const { name, category, description, price } = req.body`), the parsed
`variants` field (`req.body.variants ? JSON.parse(...) : []`), and the
field names of `req.files` in order.  The per-file upload outcomes are
passed separately as the oracle of `uploadToCloudinary`. -/

/-- A multipart create request, after multer and `JSON.parse`. -/
structure MultipartReq where
  name : Option String
  category : Option String
  description : Option String
  price : Option Int
  variantsField : Option (List Variant)
  fileFields : List String
  deriving DecidableEq, Repr

/-- The multipart `POST /api/products` handler.  Uploads all files in
parallel (`Promise.all`); a rejected upload is caught and answered with
500, saving nothing.  Otherwise the URLs are routed back to their slots,
and the new product is saved with `price` only when the variants list is
empty and `variants` only when it is non-empty (Mongoose defaults the
absent `variants` to `[]`, and a missing required `name`/`category`
makes `save()` throw, caught as 500).  Returns
(status, response document, store). -/
def multipartCreate (db : SimpleDB) (req : MultipartReq)
    (uploadResults : List (Option String)) :
    Nat × Option ProductDoc × SimpleDB :=
  let variants := req.variantsField.getD []
  match promiseAll uploadResults with
  | none => (500, none, db)
  | some urls =>
    let acc := routeUploads req.fileFields urls [] variants
    match req.name, req.category with
    | some nm, some cat =>
      let doc : ProductDoc :=
        { name := nm
          category := cat
          description := req.description
          price := if acc.variants.length > 0 then none else req.price
          img := none
          images := acc.mainImages
          variants := acc.variants }
      (201, some doc, ⟨db.products ++ [(db.nextId, doc)], db.nextId + 1⟩)
    | _, _ => (500, none, db)

/-! ## The multipart update handler (`PUT /api/products/:id`) -/

/-- The update object passed to `findByIdAndUpdate`.  A field holding
`none` models a key whose value is `undefined`: Mongoose strips such
keys from the `$set`, so the stored field is left unmodified. -/
structure UpdateObj where
  name : Option String
  category : Option String
  description : Option String
  price : Option Int
  images : Option (List String)
  variants : Option (List Variant)
  deriving DecidableEq, Repr

/-- A multipart update request: the create fields plus the parsed
`existingImages` keep-list. -/
structure MultipartUpdateReq where
  name : Option String
  category : Option String
  description : Option String
  price : Option Int
  variantsField : Option (List Variant)
  existingImagesField : Option (List String)
  fileFields : List String
  deriving DecidableEq, Repr

/-- Builds `updatedProductData` from the routed accumulator: the final
main image list, `price` only when the (routed) variants list is empty,
`variants` only when it is non-empty. -/
def buildUpdateObj (req : MultipartUpdateReq) (acc : RouteAcc) : UpdateObj :=
  { name := req.name
    category := req.category
    description := req.description
    images := some acc.mainImages
    price := if acc.variants.length > 0 then none else req.price
    variants := if acc.variants.length > 0 then some acc.variants else none }

/-- Applies an update object to a stored document with `findByIdAndUpdate`'s
`$set` semantics: keys present in the update replace the stored field,
absent (`undefined`-valued, hence stripped) keys leave it unchanged. -/
def applyUpdate (old : ProductDoc) (upd : UpdateObj) : ProductDoc :=
  { name := upd.name.getD old.name
    category := upd.category.getD old.category
    description := match upd.description with
      | some d => some d
      | none => old.description
    price := match upd.price with
      | some p => some p
      | none => old.price
    img := old.img
    images := upd.images.getD old.images
    variants := upd.variants.getD old.variants }

/-- The multipart `PUT /api/products/:id` handler: uploads in parallel
(any rejection → 500, nothing written), routes the new URLs into the
`existingImages` keep-list or the matching variant, then applies
`findByIdAndUpdate` — 404 when no document has the identifier. -/
def multipartUpdate (db : SimpleDB) (id : Nat) (req : MultipartUpdateReq)
    (uploadResults : List (Option String)) :
    Nat × Option ProductDoc × SimpleDB :=
  match promiseAll uploadResults with
  | none => (500, none, db)
  | some urls =>
    let variants := req.variantsField.getD []
    let acc := routeUploads req.fileFields urls (req.existingImagesField.getD []) variants
    let upd := buildUpdateObj req acc
    match db.products.find? (fun p => p.1 = id) with
    | none => (404, none, db)
    | some pr =>
      let newDoc := applyUpdate pr.2 upd
      (200, some newDoc,
        ⟨db.products.map (fun p => if p.1 = id then (p.1, newDoc) else p), db.nextId⟩)

/-! ## The plain JSON server (`server.js`) -/

/-- A JSON request body for the plain `POST /api/products`: every schema
field may be absent. -/
structure SBody where
  name : Option String
  category : Option String
  description : Option String
  price : Option Int
  img : Option String
  images : List String
  variants : List Variant
  deriving DecidableEq, Repr

/-- Mongoose validation performed by `new Product(req.body).save()`: the
`required` fields `name` and `category` must be present; the remaining
fields are copied into the document. -/
def validateBody (b : SBody) : Option ProductDoc :=
  match b.name, b.category with
  | some n, some c =>
    some { name := n, category := c, description := b.description,
           price := b.price, img := b.img, images := b.images,
           variants := b.variants }
  | _, _ => none

/-- The plain `POST /api/products`: saves the document and answers 201
with it, or 400 when validation throws. -/
def postProduct (db : SimpleDB) (body : SBody) :
    Nat × Option ProductDoc × SimpleDB :=
  match validateBody body with
  | none => (400, none, db)
  | some doc =>
    (201, some doc, ⟨db.products ++ [(db.nextId, doc)], db.nextId + 1⟩)

/-- The plain `GET /api/products`: `Product.find({})`, every stored
document. -/
def getProducts (db : SimpleDB) : List ProductDoc :=
  db.products.map (fun p => p.2)

/-- The plain `DELETE /api/products/:id`: `findByIdAndDelete`, 404 when
no document carries the identifier. -/
def deleteProductSimple (db : SimpleDB) (id : Nat) : Nat × SimpleDB :=
  match db.products.find? (fun p => p.1 = id) with
  | none => (404, db)
  | some _ => (200, ⟨db.products.eraseP (fun p => p.1 = id), db.nextId⟩)

/-! ## The category-aware variant

This variant adds a `Category` collection (`{ name (unique, required),
position (default 0) }`), a `findOrCreateCategory` helper invoked by the
product create/update routes, category reorder and rename routes, and
cascading category cleanup in the product delete route.  Its product
schema embeds variants with an `images` string list. -/

/-- A category document: `{ name, position }`. -/
structure Category where
  name : String
  position : Int
  deriving DecidableEq, Repr

/-- A variant subdocument of the category-aware schema:
`{ size, price, images }`. -/
structure VVariant where
  size : String
  price : Option Int
  images : List String
  deriving DecidableEq, Repr

/-- A persisted product document of the category-aware schema. -/
structure PDoc where
  name : String
  category : String
  description : Option String
  price : Option Int
  img : Option String
  images : List String
  variants : List VVariant
  deriving DecidableEq, Repr

/-- A JSON request body for the category-aware `POST /api/products`.
`category` is kept mandatory in the embedding: every claim about this
route concerns a request that names a category. -/
structure PBody where
  name : Option String
  category : String
  description : Option String
  price : Option Int
  img : Option String
  images : List String
  variants : List VVariant
  deriving DecidableEq, Repr

/-- The two collections of the category-aware variant plus the next
fresh product identifier. -/
structure CatDB where
  products : List (Nat × PDoc)
  categories : List Category
  nextId : Nat
  deriving DecidableEq, Repr

/-- Models `Category.findOne().sort('-position')`: the position of the
first document in descending position order, i.e. the maximum position
present, `none` on an empty collection. -/
def maxPosition : List Category → Option Int
  | [] => none
  | c :: cs =>
    some (match maxPosition cs with
      | none => c.position
      | some m => max c.position m)

/-- Computes `highestPositionCategory ? highestPositionCategory.position + 1 : 0`. -/
def nextPosition (cats : List Category) : Int :=
  match maxPosition cats with
  | none => 0
  | some m => m + 1

/-- Embeds `findOrCreateCategory`: looks the name up; when absent,
inserts a fresh category at `nextPosition`.  Returns the category and
the updated collection. -/
def findOrCreateCategory (cats : List Category) (categoryName : String) :
    Category × List Category :=
  match cats.find? (fun c => c.name = categoryName) with
  | some c => (c, cats)
  | none =>
    let c : Category := ⟨categoryName, nextPosition cats⟩
    (c, cats ++ [c])

/-- The category-aware `POST /api/products`: runs `findOrCreateCategory`
on the request's category (this write persists even when the later
`save()` throws), then saves the product — 400 when the required `name`
is missing. -/
def postProductCat (db : CatDB) (body : PBody) : Nat × Option PDoc × CatDB :=
  let cats := (findOrCreateCategory db.categories body.category).2
  match body.name with
  | none => (400, none, { db with categories := cats })
  | some nm =>
    let doc : PDoc :=
      { name := nm, category := body.category, description := body.description,
        price := body.price, img := body.img, images := body.images,
        variants := body.variants }
    (201, some doc,
      ⟨db.products ++ [(db.nextId, doc)], cats, db.nextId + 1⟩)

/-- The category-aware `DELETE /api/products/:id`: `findByIdAndDelete`
(404 when absent), then counts the products still referencing the
deleted product's category and deletes that category document when none
remain. -/
def deleteProductCat (db : CatDB) (id : Nat) : Nat × CatDB :=
  match db.products.find? (fun p => p.1 = id) with
  | none => (404, db)
  | some pr =>
    let products := db.products.eraseP (fun p => p.1 = id)
    let remaining := products.countP (fun p => p.2.category = pr.2.category)
    let categories :=
      if remaining = 0 then db.categories.eraseP (fun c => c.name = pr.2.category)
      else db.categories
    (200, ⟨products, categories, db.nextId⟩)

/-- Applies `updateOne(filter, change)` to a list of documents: rewrites
the first match, does nothing when no document matches. -/
def updateFirst (p : α → Bool) (f : α → α) : List α → List α
  | [] => []
  | x :: xs => if p x then f x :: xs else x :: updateFirst p f xs

/-- One `Category.updateOne({name}, {$set: {position: index}})` of the
reorder route, on the (index, name) pair `p`. -/
def reorderStep (cs : List Category) (p : Nat × String) : List Category :=
  updateFirst (fun c => c.name = p.2) (fun c => { c with position := (p.1 : Int) }) cs

/-- The `PUT /api/categories/order` handler: one position update per
listed name, joined by `Promise.all`; a name without a matching document
updates nothing and raises no error, and the route always answers 200. -/
def reorderCategories (cats : List Category) (orderedCategories : List String) :
    Nat × List Category :=
  (200, orderedCategories.enum.foldl reorderStep cats)

/-- The `PUT /api/categories/:name` rename handler with body
`{ newName }`.  A falsy `newName` (absent, modelled `none`, or the empty
string) answers 400; an already-used `newName` answers 409; otherwise
every product referencing the old name and the category document itself
are rewritten. -/
def renameCategory (db : CatDB) (oldName : String) (newName : Option String) :
    Nat × CatDB :=
  match newName with
  | none => (400, db)
  | some nn =>
    if nn = "" then (400, db)
    else if (db.categories.find? (fun c => c.name = nn)).isSome then (409, db)
    else
      (200,
        ⟨db.products.map (fun p =>
            if p.2.category = oldName then (p.1, { p.2 with category := nn }) else p),
          updateFirst (fun c => c.name = oldName) (fun c => { c with name := nn })
            db.categories,
          db.nextId⟩)

/-! ## Helper lemmas -/

theorem setVariantImage_length (url : String) :
    ∀ (vs : List Variant) (i : Nat), (setVariantImage url vs i).length = vs.length
  | [], _ => rfl
  | _ :: vs, 0 => by simp [setVariantImage]
  | _ :: vs, n + 1 => by simp [setVariantImage, setVariantImage_length url vs n]

theorem getElem?_setVariantImage_self (url : String) :
    ∀ (vs : List Variant) (i : Nat), i < vs.length →
      (setVariantImage url vs i)[i]? =
        vs[i]?.map (fun v => { v with image := some url })
  | [], i, h => by simp at h
  | v :: vs, 0, _ => by simp [setVariantImage]
  | v :: vs, n + 1, h => by
    simpa [setVariantImage] using
      getElem?_setVariantImage_self url vs n (by simpa using h)

theorem getElem?_setVariantImage_ne (url : String) :
    ∀ (vs : List Variant) (i j : Nat), j ≠ i →
      (setVariantImage url vs i)[j]? = vs[j]?
  | [], _, _, _ => by simp [setVariantImage]
  | v :: vs, 0, 0, h => absurd rfl h
  | v :: vs, 0, j + 1, _ => by simp [setVariantImage]
  | v :: vs, i + 1, 0, _ => by simp [setVariantImage]
  | v :: vs, i + 1, j + 1, h => by
    simpa [setVariantImage] using
      getElem?_setVariantImage_ne url vs i j (by omega)

theorem completeUploads_length (u : Nat → String) :
    ∀ (sched : List Nat) (slots : List (Option String)),
      (completeUploads u sched slots).length = slots.length
  | [], _ => rfl
  | j :: rest, slots => by
    have step : completeUploads u (j :: rest) slots
        = completeUploads u rest (fillSlot u slots j) := rfl
    rw [step, completeUploads_length u rest (fillSlot u slots j)]
    simp [fillSlot]

theorem getElem?_completeUploads (u : Nat → String) :
    ∀ (sched : List Nat) (slots : List (Option String)) (i : Nat),
      (completeUploads u sched slots)[i]? =
        if i ∈ sched ∧ i < slots.length then some (some (u i)) else slots[i]?
  | [], slots, i => by simp [completeUploads]
  | j :: rest, slots, i => by
    have step : completeUploads u (j :: rest) slots
        = completeUploads u rest (fillSlot u slots j) := rfl
    rw [step, getElem?_completeUploads u rest (fillSlot u slots j) i]
    by_cases h1 : i ∈ rest ∧ i < slots.length
    · have : i ∈ j :: rest := List.mem_cons_of_mem _ h1.1
      simp [fillSlot, h1, this, h1.2]
    · by_cases h2 : i = j
      · subst h2
        by_cases h3 : i < slots.length
        · have hget : (fillSlot u slots i)[i]? = some (some (u i)) :=
            List.getElem?_set_self (by simpa [fillSlot] using h3)
          simp [h1, hget, h3, List.mem_cons]
        · have hg : slots[i]? = none := List.getElem?_eq_none (by omega)
          have hget : (fillSlot u slots i)[i]? = none := by
            apply List.getElem?_eq_none
            simp [fillSlot]
            omega
          simp [fillSlot, h1, h3, hget, hg, List.mem_cons]
          omega
      · have hget : (fillSlot u slots j)[i]? = slots[i]? :=
          List.getElem?_set_ne (fun h => h2 h.symm)
        have hcond : ¬ (i ∈ j :: rest ∧ i < slots.length) := by
          intro hc
          rcases List.mem_cons.mp hc.1 with h | h
          · exact h2 h
          · exact h1 ⟨h, hc.2⟩
        have hcond : ¬ ((i = j ∨ i ∈ rest) ∧ i < slots.length) := by
          rintro ⟨h | h, hl⟩
          · exact h2 h
          · exact h1 ⟨h, hl⟩
        simpa [fillSlot, hcond, h1] using hget

theorem promiseAllJoin_perm (n : Nat) (u : Nat → String) (sched : List Nat)
    (hperm : sched.Perm (List.range n)) :
    promiseAllJoin n u sched = (List.range n).map (fun i => some (u i)) := by
  apply List.ext_getElem?
  intro i
  have hmem : i ∈ sched ↔ i < n := by
    rw [hperm.mem_iff, List.mem_range]
  rw [promiseAllJoin, getElem?_completeUploads]
  by_cases h : i < n
  · simp [hmem, h, List.getElem?_range h]
  · have h1 : (List.replicate n (none : Option String))[i]? = none :=
      List.getElem?_eq_none (by simp; omega)
    have h2 : ((List.range n).map (fun i => some (u i)))[i]? = none :=
      List.getElem?_eq_none (by simp; omega)
    simp only [List.length_replicate] at *
    simp [hmem, h, h1, h2]

theorem promiseAll_map_some :
    ∀ us : List String, promiseAll (us.map some) = some us
  | [] => rfl
  | u :: us => by simp [promiseAll, promiseAll_map_some us]

theorem promiseAll_eq_none_of_mem :
    ∀ rs : List (Option String), none ∈ rs → promiseAll rs = none
  | [], h => by simp at h
  | none :: rs, _ => by simp [promiseAll]
  | some u :: rs, h => by
    have hm : (none : Option String) ∈ rs := by
      rcases List.mem_cons.mp h with h | h
      · exact absurd h (by simp)
      · exact h
    simp [promiseAll, promiseAll_eq_none_of_mem rs hm]

theorem promiseAll_eq_some :
    ∀ (rs : List (Option String)) (us : List String),
      promiseAll rs = some us → rs = us.map some
  | [], us, h => by
    simp [promiseAll] at h
    simp [← h]
  | none :: rs, us, h => by simp [promiseAll] at h
  | some u :: rs, us, h => by
    match hr : promiseAll rs with
    | some vs =>
      simp [promiseAll, hr] at h
      simp [← h, promiseAll_eq_some rs vs hr]
    | none => simp [promiseAll, hr] at h

theorem routeOne_variants_length (acc : RouteAcc) (f u : String) :
    (routeOne acc f u).variants.length = acc.variants.length := by
  unfold routeOne
  repeat' split
  all_goals simp [setVariantImage_length]

theorem routeFold_variants_length :
    ∀ (l : List (String × String)) (acc : RouteAcc),
      (routeFold acc l).variants.length = acc.variants.length
  | [], _ => rfl
  | p :: l, acc => by
    have step : routeFold acc (p :: l) = routeFold (routeOne acc p.1 p.2) l := rfl
    rw [step, routeFold_variants_length l, routeOne_variants_length]

theorem routeOne_ignored (acc : RouteAcc) (f u : String)
    (hpre : isVariantImageField f = true)
    (hbad : ∀ i : Int, parseVariantIndex f = some i →
      ¬ (0 ≤ i ∧ i.toNat < acc.variants.length)) :
    routeOne acc f u = acc := by
  have hne : f ≠ "images" := by
    intro h
    rw [h] at hpre
    exact absurd hpre (by decide)
  unfold routeOne
  rw [if_neg hne, if_pos hpre]
  cases hp : parseVariantIndex f with
  | none => rfl
  | some i => exact if_neg (hbad i hp)

theorem routeOne_variantField (acc : RouteAcc) (f u : String) (i : Int)
    (hne : f ≠ "images") (hpre : isVariantImageField f = true)
    (hp : parseVariantIndex f = some i)
    (hin : 0 ≤ i ∧ i.toNat < acc.variants.length) :
    routeOne acc f u
      = { acc with variants := setVariantImage u acc.variants i.toNat } := by
  unfold routeOne
  rw [if_neg hne, if_pos hpre, hp]
  exact if_pos hin

theorem routeFold_erase :
    ∀ (l : List (String × String)) (k : Nat) (acc : RouteAcc) (f u : String),
      l[k]? = some (f, u) → isVariantImageField f = true →
      (∀ i : Int, parseVariantIndex f = some i →
        ¬ (0 ≤ i ∧ i.toNat < acc.variants.length)) →
      routeFold acc l = routeFold acc (l.eraseIdx k)
  | [], k, _, _, _, hk, _, _ => by simp at hk
  | p :: l, 0, acc, f, u, hk, hpre, hbad => by
    have hp : p = (f, u) := by simpa using hk
    subst hp
    have step : routeFold acc ((f, u) :: l) = routeFold (routeOne acc f u) l := rfl
    rw [step, routeOne_ignored acc f u hpre hbad]
    rfl
  | p :: l, k + 1, acc, f, u, hk, hpre, hbad => by
    have hk' : l[k]? = some (f, u) := by simpa using hk
    have step : routeFold acc (p :: l) = routeFold (routeOne acc p.1 p.2) l := rfl
    have step2 : routeFold acc ((p :: l).eraseIdx (k + 1))
        = routeFold (routeOne acc p.1 p.2) (l.eraseIdx k) := rfl
    rw [step, step2]
    exact routeFold_erase l k (routeOne acc p.1 p.2) f u hk' hpre
      (by rw [routeOne_variants_length]; exact hbad)

theorem zip_eraseIdx {α β : Type} :
    ∀ (xs : List α) (ys : List β) (k : Nat), xs.length = ys.length →
      (xs.eraseIdx k).zip (ys.eraseIdx k) = (xs.zip ys).eraseIdx k
  | [], [], _, _ => rfl
  | [], _ :: _, _, h => by simp at h
  | _ :: _, [], _, h => by simp at h
  | x :: xs, y :: ys, 0, _ => rfl
  | x :: xs, y :: ys, k + 1, h => by
    have h' : xs.length = ys.length := by simpa using h
    show (x, y) :: (xs.eraseIdx k).zip (ys.eraseIdx k)
        = (x, y) :: (xs.zip ys).eraseIdx k
    rw [zip_eraseIdx xs ys k h']

theorem zip_getElem? {α β : Type} :
    ∀ (xs : List α) (ys : List β) (k : Nat) (x : α) (y : β),
      xs[k]? = some x → ys[k]? = some y → (xs.zip ys)[k]? = some (x, y)
  | [], _, _, _, _, hx, _ => by simp at hx
  | _ :: _, [], _, _, _, _, hy => by simp at hy
  | a :: xs, b :: ys, 0, x, y, hx, hy => by
    simp at hx hy
    simp [hx, hy]
  | a :: xs, b :: ys, k + 1, x, y, hx, hy => by
    simpa using zip_getElem? xs ys k x y (by simpa using hx) (by simpa using hy)

theorem maxPosition_eq_none :
    ∀ cats : List Category, maxPosition cats = none ↔ cats = []
  | [] => by simp [maxPosition]
  | c :: cs => by simp [maxPosition]

theorem maxPosition_le :
    ∀ (cats : List Category) (m : Int), maxPosition cats = some m →
      ∀ c ∈ cats, c.position ≤ m
  | [], m, h => by simp [maxPosition] at h
  | c :: cs, m, h => by
    intro d hd
    cases hm : maxPosition cs with
    | none =>
      have hcs : cs = [] := (maxPosition_eq_none cs).mp hm
      subst hcs
      simp [maxPosition] at h
      rcases List.mem_singleton.mp hd with rfl
      omega
    | some m' =>
      simp [maxPosition, hm] at h
      rcases List.mem_cons.mp hd with rfl | hd'
      · omega
      · have := maxPosition_le cs m' hm d hd'
        omega

theorem maxPosition_mem :
    ∀ (cats : List Category) (m : Int), maxPosition cats = some m →
      ∃ c ∈ cats, c.position = m
  | [], m, h => by simp [maxPosition] at h
  | c :: cs, m, h => by
    cases hm : maxPosition cs with
    | none =>
      simp [maxPosition, hm] at h
      exact ⟨c, List.mem_cons_self c cs, by omega⟩
    | some m' =>
      simp [maxPosition, hm] at h
      rcases le_total m' c.position with hle | hle
      · refine ⟨c, List.mem_cons_self c cs, ?_⟩
        omega
      · obtain ⟨d, hd, hdm⟩ := maxPosition_mem cs m' hm
        refine ⟨d, List.mem_cons_of_mem c hd, ?_⟩
        omega

/-- Position of a name in a list of category names: `some i` when the
first occurrence of the name sits at index `i`. -/
def indexOfName (nm : String) : List String → Option Nat
  | [] => none
  | x :: xs => if x = nm then some 0 else (indexOfName nm xs).map (· + 1)

theorem indexOfName_eq_none {nm : String} :
    ∀ l : List String, nm ∉ l → indexOfName nm l = none
  | [], _ => rfl
  | x :: xs, h => by
    have hx : ¬ (x = nm) := by
      intro he
      exact h (by simp [he])
    have hxs : nm ∉ xs := fun hm => h (List.mem_cons_of_mem _ hm)
    simp [indexOfName, hx, indexOfName_eq_none xs hxs]

theorem updateFirst_name_map (p : Category → Bool) (f : Category → Category)
    (hf : ∀ c, (f c).name = c.name) :
    ∀ cs : List Category,
      (updateFirst p f cs).map Category.name = cs.map Category.name
  | [] => rfl
  | c :: cs => by
    by_cases h : p c
    · simp [updateFirst, h, hf]
    · simp [updateFirst, h, updateFirst_name_map p f hf cs]

theorem updateFirst_eq_map_of_nodup {nm : String} {f : Category → Category} :
    ∀ cs : List Category, (cs.map Category.name).Nodup →
      updateFirst (fun c => c.name = nm) f cs
        = cs.map (fun c => if c.name = nm then f c else c)
  | [], _ => rfl
  | c :: cs, h => by
    rw [List.map_cons] at h
    have h' := List.nodup_cons.mp h
    by_cases hc : c.name = nm
    · have hnot : ∀ d ∈ cs, ¬ (d.name = nm) := by
        intro d hd hdn
        have hmem : d.name ∈ cs.map Category.name :=
          List.mem_map_of_mem Category.name hd
        rw [hdn, ← hc] at hmem
        exact h'.1 hmem
      have hmap : cs.map (fun d => if d.name = nm then f d else d)
          = cs.map (fun d => d) :=
        List.map_congr_left (fun d hd => if_neg (hnot d hd))
      simp [updateFirst, hc, hmap]
    · simp [updateFirst, hc, updateFirst_eq_map_of_nodup cs h'.2]

theorem reorderFold :
    ∀ (nms : List String) (k : Nat) (cs : List Category),
      (cs.map Category.name).Nodup → nms.Nodup →
      (nms.enumFrom k).foldl reorderStep cs
        = cs.map (fun c =>
            match indexOfName c.name nms with
            | some j => { c with position := ((k + j : Nat) : Int) }
            | none => c)
  | [], k, cs, _, _ => by
    have hfun : (fun c : Category =>
        match indexOfName c.name [] with
        | some j => { c with position := ((k + j : Nat) : Int) }
        | none => c) = fun c => c := rfl
    show cs = cs.map _
    rw [hfun, List.map_id']
  | nm :: nms, k, cs, hC, hN => by
    have hN' := List.nodup_cons.mp hN
    have hnames : (reorderStep cs (k, nm)).map Category.name
        = cs.map Category.name := by
      unfold reorderStep
      exact updateFirst_name_map (fun c => c.name = (k, nm).2)
        (fun c => { c with position := ((k, nm).1 : Int) }) (fun c => rfl) cs
    have hnodup1 : ((reorderStep cs (k, nm)).map Category.name).Nodup := by
      rw [hnames]; exact hC
    have step : ((nm :: nms).enumFrom k).foldl reorderStep cs
        = (nms.enumFrom (k + 1)).foldl reorderStep (reorderStep cs (k, nm)) := rfl
    rw [step, reorderFold nms (k + 1) (reorderStep cs (k, nm)) hnodup1 hN'.2]
    have hmap1 : reorderStep cs (k, nm)
        = cs.map (fun c =>
            if c.name = nm then { c with position := ((k : Nat) : Int) } else c) :=
      updateFirst_eq_map_of_nodup cs hC
    rw [hmap1, List.map_map]
    apply List.map_congr_left
    intro c _
    by_cases hcn : c.name = nm
    · have hidx : indexOfName nm nms = none := indexOfName_eq_none nms hN'.1
      have hidx2 : indexOfName nm (nm :: nms) = some 0 := by
        simp [indexOfName]
      simp [Function.comp, hcn, hidx, hidx2]
    · have hne : ¬ (nm = c.name) := fun h => hcn h.symm
      cases hio : indexOfName c.name nms with
      | none =>
        have hidx2 : indexOfName c.name (nm :: nms) = none := by
          simp [indexOfName, hne, hio]
        simp [Function.comp, hcn, hio, hidx2]
      | some j =>
        have hidx2 : indexOfName c.name (nm :: nms) = some (j + 1) := by
          simp [indexOfName, hne, hio]
        simp only [Function.comp_apply, if_neg hcn, hio, hidx2]
        have harith : ((k + 1 + j : Nat) : Int) = ((k + (j + 1) : Nat) : Int) := by
          omega
        rw [harith]

/-! ## The claims -/

/-- C2: for every category name and state of the Category collection,
find-or-create looks the name up; when no category with that name exists
it inserts a new category whose position is (the maximum existing
position) + 1, or 0 when the collection is empty; and creating a product
through the category-aware route with a category name that does not yet
exist grows the Category collection by exactly that document. -/
theorem claim2_findOrCreateCategory (cats : List Category) (nm : String)
    (habs : cats.find? (fun c => c.name = nm) = none) :
    (findOrCreateCategory cats nm).2 = cats ++ [⟨nm, nextPosition cats⟩]
    ∧ (cats = [] → nextPosition cats = 0)
    ∧ (∀ c ∈ cats, c.position < nextPosition cats)
    ∧ (cats ≠ [] → ∃ c ∈ cats, nextPosition cats = c.position + 1)
    ∧ (∀ (db : CatDB) (body : PBody), db.categories = cats → body.category = nm →
        ((postProductCat db body).2.2).categories
          = cats ++ [⟨nm, nextPosition cats⟩]) := by
  refine ⟨?_, ?_, ?_, ?_, ?_⟩
  · unfold findOrCreateCategory
    rw [habs]
  · intro h
    subst h
    rfl
  · intro c hc
    cases hm : maxPosition cats with
    | none =>
      rw [(maxPosition_eq_none cats).mp hm] at hc
      simp at hc
    | some m =>
      have hle := maxPosition_le cats m hm c hc
      have hnp : nextPosition cats = m + 1 := by
        unfold nextPosition
        rw [hm]
      omega
  · intro hne
    cases hm : maxPosition cats with
    | none => exact absurd ((maxPosition_eq_none cats).mp hm) hne
    | some m =>
      obtain ⟨c, hc, hcm⟩ := maxPosition_mem cats m hm
      have hnp : nextPosition cats = m + 1 := by
        unfold nextPosition
        rw [hm]
      exact ⟨c, hc, by omega⟩
  · intro db body hdb hcat
    have hcats : ((postProductCat db body).2.2).categories
        = (findOrCreateCategory db.categories body.category).2 := by
      cases hbn : body.name <;> simp [postProductCat, hbn]
    rw [hcats, hdb, hcat]
    unfold findOrCreateCategory
    rw [habs]

theorem claim2_witness :
    (findOrCreateCategory [⟨"a", 0⟩] "b").2
      = [⟨"a", 0⟩] ++ [⟨"b", nextPosition [⟨"a", 0⟩]⟩]
    ∧ ((postProductCat ⟨[], [⟨"a", 0⟩], 0⟩
          ⟨some "p", "b", none, none, none, [], []⟩).2.2).categories
        = [⟨"a", 0⟩] ++ [⟨"b", nextPosition [⟨"a", 0⟩]⟩] :=
  ⟨(claim2_findOrCreateCategory [⟨"a", 0⟩] "b" (by decide)).1,
   (claim2_findOrCreateCategory [⟨"a", 0⟩] "b" (by decide)).2.2.2.2
     ⟨[], [⟨"a", 0⟩], 0⟩ ⟨some "p", "b", none, none, none, [], []⟩ rfl rfl⟩

/-- C3: in the category-aware variant, deleting an existing product by
identifier answers 200 and removes the product; when no stored product
references the deleted product's category any more the Category document
of that name is deleted, and otherwise the Category collection is left
in place. -/
theorem claim3_deleteCascade (db : CatDB) (id : Nat) (pr : Nat × PDoc)
    (hfind : db.products.find? (fun p => p.1 = id) = some pr) :
    (deleteProductCat db id).1 = 200
    ∧ (deleteProductCat db id).2.products
        = db.products.eraseP (fun p => p.1 = id)
    ∧ ((db.products.eraseP (fun p => p.1 = id)).countP
          (fun p => p.2.category = pr.2.category) = 0 →
        (deleteProductCat db id).2.categories
          = db.categories.eraseP (fun c => c.name = pr.2.category))
    ∧ ((db.products.eraseP (fun p => p.1 = id)).countP
          (fun p => p.2.category = pr.2.category) ≠ 0 →
        (deleteProductCat db id).2.categories = db.categories) := by
  unfold deleteProductCat
  rw [hfind]
  refine ⟨rfl, rfl, ?_, ?_⟩ <;> intro h <;> simp [h]

theorem claim3_witness :
    (deleteProductCat
        ⟨[(0, ⟨"p", "c", none, some 1, none, [], []⟩)], [⟨"c", 0⟩], 1⟩ 0).1 = 200
    ∧ (deleteProductCat
        ⟨[(0, ⟨"p", "c", none, some 1, none, [], []⟩)], [⟨"c", 0⟩], 1⟩ 0).2.categories
      = ([⟨"c", 0⟩] : List Category).eraseP (fun c => c.name = "c") :=
  ⟨(claim3_deleteCascade _ 0 (0, ⟨"p", "c", none, some 1, none, [], []⟩) (by decide)).1,
   (claim3_deleteCascade _ 0 (0, ⟨"p", "c", none, some 1, none, [], []⟩)
      (by decide)).2.2.1 (by decide)⟩

/-- C4: renaming a category to a (non-empty) name that an existing
Category document already carries answers 409 and mutates neither the
Product nor the Category collection, and a rename request whose body
lacks `newName` answers 400 without mutating either collection. -/
theorem claim4_renameConflict (db : CatDB) (oldName newName : String) :
    (newName ≠ "" → (db.categories.find? (fun c => c.name = newName)).isSome →
      renameCategory db oldName (some newName) = (409, db))
    ∧ renameCategory db oldName none = (400, db) := by
  constructor
  · intro h1 h2
    simp only [renameCategory]
    rw [if_neg h1, if_pos h2]
  · rfl

theorem claim4_witness :
    renameCategory ⟨[], [⟨"x", 0⟩], 0⟩ "y" (some "x") = (409, ⟨[], [⟨"x", 0⟩], 0⟩)
    ∧ renameCategory ⟨[], [⟨"x", 0⟩], 0⟩ "y" none = (400, ⟨[], [⟨"x", 0⟩], 0⟩) :=
  ⟨(claim4_renameConflict ⟨[], [⟨"x", 0⟩], 0⟩ "y" "x").1 (by decide) (by decide),
   (claim4_renameConflict ⟨[], [⟨"x", 0⟩], 0⟩ "y" "x").2⟩

/-- C5: for every multipart create request, when any one of the file
uploads rejects, `Promise.all` rejects, the handler answers 500 and no
product document is saved — the store is returned unchanged, so no
partially uploaded URLs are persisted. -/
theorem claim5_uploadFailureAtomic (db : SimpleDB) (req : MultipartReq)
    (results : List (Option String)) (hfail : none ∈ results) :
    multipartCreate db req results = (500, none, db) := by
  simp [multipartCreate, promiseAll_eq_none_of_mem results hfail]

theorem claim5_witness :
    multipartCreate ⟨[], 0⟩
      ⟨some "p", some "c", none, some 3, none, ["images", "images"]⟩
      [some "u1", none]
      = (500, none, ⟨[], 0⟩) :=
  claim5_uploadFailureAtomic ⟨[], 0⟩
    ⟨some "p", some "c", none, some 3, none, ["images", "images"]⟩
    [some "u1", none] (by decide)

/-- C6: deleting an identifier that matches no stored product answers
404 and leaves the store exactly as it was, in the plain variant and in
the category-aware variant (products and categories alike). -/
theorem claim6_delete404 (db : SimpleDB) (cdb : CatDB) (id : Nat)
    (h1 : db.products.find? (fun p => p.1 = id) = none)
    (h2 : cdb.products.find? (fun p => p.1 = id) = none) :
    deleteProductSimple db id = (404, db)
    ∧ deleteProductCat cdb id = (404, cdb) := by
  constructor
  · unfold deleteProductSimple
    rw [h1]
  · unfold deleteProductCat
    rw [h2]

theorem claim6_witness :
    deleteProductSimple ⟨[(0, ⟨"p", "c", none, some 1, none, [], []⟩)], 1⟩ 7
      = (404, ⟨[(0, ⟨"p", "c", none, some 1, none, [], []⟩)], 1⟩)
    ∧ deleteProductCat ⟨[], [⟨"c", 0⟩], 0⟩ 7 = (404, ⟨[], [⟨"c", 0⟩], 0⟩) :=
  claim6_delete404 ⟨[(0, ⟨"p", "c", none, some 1, none, [], []⟩)], 1⟩
    ⟨[], [⟨"c", 0⟩], 0⟩ 7 (by decide) (by decide)

/-- C7: for every valid product payload without files, the plain POST
route answers 201 with the created document, a subsequent GET lists that
document, and its fields are exactly the submitted ones. -/
theorem claim7_postThenGet (db : SimpleDB) (body : SBody) (doc : ProductDoc)
    (hvalid : validateBody body = some doc) :
    postProduct db body
      = (201, some doc, ⟨db.products ++ [(db.nextId, doc)], db.nextId + 1⟩)
    ∧ doc ∈ getProducts (postProduct db body).2.2
    ∧ body.name = some doc.name ∧ body.category = some doc.category
    ∧ doc.description = body.description ∧ doc.price = body.price
    ∧ doc.img = body.img ∧ doc.images = body.images
    ∧ doc.variants = body.variants := by
  cases hn : body.name with
  | none =>
    simp only [validateBody, hn] at hvalid
    exact Option.noConfusion hvalid
  | some n =>
    cases hc : body.category with
    | none =>
      simp only [validateBody, hn, hc] at hvalid
      exact Option.noConfusion hvalid
    | some c =>
      simp only [validateBody, hn, hc, Option.some.injEq] at hvalid
      subst hvalid
      refine ⟨?_, ?_, rfl, rfl, rfl, rfl, rfl, rfl, rfl⟩
      · simp [postProduct, validateBody, hn, hc]
      · simp [postProduct, validateBody, hn, hc, getProducts]

theorem claim7_witness :
    postProduct ⟨[], 0⟩ ⟨some "p", some "c", some "d", some 4, none, ["i"], []⟩
      = (201, some ⟨"p", "c", some "d", some 4, none, ["i"], []⟩,
          ⟨[(0, ⟨"p", "c", some "d", some 4, none, ["i"], []⟩)], 1⟩)
    ∧ (⟨"p", "c", some "d", some 4, none, ["i"], []⟩ : ProductDoc)
        ∈ getProducts (postProduct ⟨[], 0⟩
            ⟨some "p", some "c", some "d", some 4, none, ["i"], []⟩).2.2 :=
  ⟨(claim7_postThenGet ⟨[], 0⟩ _ _ (by decide)).1,
   (claim7_postThenGet ⟨[], 0⟩ ⟨some "p", some "c", some "d", some 4, none, ["i"], []⟩
      ⟨"p", "c", some "d", some 4, none, ["i"], []⟩ (by decide)).2.1⟩

/-- C8: the reorder route always answers 200; every listed name that
matches a Category document gets its position set to the name's index in
the submitted list, a listed name with no matching document changes
nothing and raises no error, and a category whose name is not listed
keeps its position (stated for duplicate-free name lists, as enforced by
the unique index and sent by the client). -/
theorem claim8_reorder (cats : List Category) (ordered : List String)
    (hcat : (cats.map Category.name).Nodup) (hord : ordered.Nodup) :
    (reorderCategories cats ordered).1 = 200
    ∧ (reorderCategories cats ordered).2
        = cats.map (fun c =>
            match indexOfName c.name ordered with
            | some j => { c with position := (j : Int) }
            | none => c) := by
  refine ⟨rfl, ?_⟩
  have h := reorderFold ordered 0 cats hcat hord
  have henum : ordered.enum = ordered.enumFrom 0 := rfl
  show ordered.enum.foldl reorderStep cats = _
  rw [henum, h]
  apply List.map_congr_left
  intro c _
  cases hio : indexOfName c.name ordered with
  | none => simp [hio]
  | some j => simp [hio]

theorem claim8_witness :
    (reorderCategories [⟨"a", 0⟩, ⟨"b", 1⟩, ⟨"c", 2⟩] ["b", "ghost", "a"]).1 = 200
    ∧ (reorderCategories [⟨"a", 0⟩, ⟨"b", 1⟩, ⟨"c", 2⟩] ["b", "ghost", "a"]).2
      = ([⟨"a", 0⟩, ⟨"b", 1⟩, ⟨"c", 2⟩] : List Category).map (fun c =>
          match indexOfName c.name ["b", "ghost", "a"] with
          | some j => { c with position := (j : Int) }
          | none => c) :=
  claim8_reorder [⟨"a", 0⟩, ⟨"b", 1⟩, ⟨"c", 2⟩] ["b", "ghost", "a"]
    (by decide) (by decide)

/-- C9 counterexample: the claim fails at the multipart update handler.
Updating a stored product that carries a flat price with a request whose
parsed variants list is non-empty persists a document carrying both the
variants and the old top-level price: the update object's
`price: undefined` key is stripped from the `$set`, so the stored price
is retained rather than removed. -/
theorem claim9_counterexample :
    (multipartUpdate ⟨[(0, ⟨"p", "c", none, some 5, none, [], []⟩)], 1⟩ 0
        ⟨some "p", some "c", none, none, some [⟨"S", some 3, none⟩], none, []⟩
        []).2.1
      = some ⟨"p", "c", none, some 5, none, [], [⟨"S", some 3, none⟩]⟩
    ∧ ([⟨"S", some 3, none⟩] : List Variant) ≠ []
    ∧ (some 5 : Option Int) ≠ none :=
  ⟨by decide, by decide, by decide⟩

/-- C9 (amended): a product saved by the multipart create handler has a
flat price only when its variants list is empty — with a non-empty
parsed variants list the saved document carries those variants and no
top-level price, with an empty one the submitted price and no variants.
The update handler builds its update object the same way, but a key
whose value is `undefined` is omitted from the `$set`, so the stored
price of the pre-existing document survives an update that carries
variants (no top-level price is written, none is removed). -/
theorem claim9_priceXorVariants :
    (∀ (db : SimpleDB) (req : MultipartReq) (results : List (Option String))
       (st : Nat) (d : ProductDoc) (db' : SimpleDB),
      multipartCreate db req results = (st, some d, db') →
      (req.variantsField.getD [] ≠ [] →
        d.price = none
        ∧ d.variants.length = (req.variantsField.getD []).length
        ∧ d.variants ≠ [])
      ∧ (req.variantsField.getD [] = [] → d.price = req.price ∧ d.variants = []))
    ∧ (∀ (ureq : MultipartUpdateReq) (acc : RouteAcc),
        (acc.variants ≠ [] →
          (buildUpdateObj ureq acc).price = none
          ∧ (buildUpdateObj ureq acc).variants = some acc.variants)
        ∧ (acc.variants = [] →
          (buildUpdateObj ureq acc).price = ureq.price
          ∧ (buildUpdateObj ureq acc).variants = none))
    ∧ (∀ (old : ProductDoc) (upd : UpdateObj),
        upd.price = none → (applyUpdate old upd).price = old.price) := by
  refine ⟨?_, ?_, ?_⟩
  · intro db req results st d db' h
    cases hpa : promiseAll results with
    | none =>
      simp only [multipartCreate, hpa] at h
      have hcontr := congrArg (fun x => x.2.1) h
      simp at hcontr
    | some urls =>
      cases hnm : req.name with
      | none =>
        simp only [multipartCreate, hpa, hnm] at h
        have hcontr := congrArg (fun x => x.2.1) h
        simp at hcontr
      | some nm =>
        cases hcat : req.category with
        | none =>
          simp only [multipartCreate, hpa, hnm, hcat] at h
          have hcontr := congrArg (fun x => x.2.1) h
          simp at hcontr
        | some cat =>
          simp only [multipartCreate, hpa, hnm, hcat] at h
          have hd := congrArg (fun x => x.2.1) h
          simp only [Option.some.injEq] at hd
          have hlen2 : (routeUploads req.fileFields urls []
                (req.variantsField.getD [])).variants.length
              = (req.variantsField.getD []).length := by
            rw [routeUploads]
            exact routeFold_variants_length _ _
          have hprice : d.price
              = if (routeUploads req.fileFields urls []
                    (req.variantsField.getD [])).variants.length > 0
                then none else req.price := by
            rw [← hd]
          have hvar : d.variants
              = (routeUploads req.fileFields urls []
                  (req.variantsField.getD [])).variants := by
            rw [← hd]
          constructor
          · intro hne
            have hpos : 0 < (req.variantsField.getD []).length :=
              List.length_pos.mpr hne
            refine ⟨?_, ?_, ?_⟩
            · rw [hprice, if_pos (by omega)]
            · rw [hvar]
              exact hlen2
            · rw [hvar]
              apply List.ne_nil_of_length_pos
              omega
          · intro heq
            have hz : (routeUploads req.fileFields urls []
                (req.variantsField.getD [])).variants = [] := by
              rw [← List.length_eq_zero, hlen2, heq]
              rfl
            constructor
            · rw [hprice, if_neg (by rw [hz]; simp)]
            · rw [hvar, hz]
  · intro ureq acc
    constructor
    · intro h
      have hpos : 0 < acc.variants.length := List.length_pos.mpr h
      constructor <;> simp [buildUpdateObj, hpos, Nat.pos_iff_ne_zero]
    · intro h
      constructor <;> simp [buildUpdateObj, h]
  · intro old upd h
    simp [applyUpdate, h]

theorem claim9_witness :
    (⟨"p", "c", none, none, none, [], [⟨"S", some 3, none⟩]⟩ : ProductDoc).price = none
    ∧ (⟨"p", "c", none, none, none, [], [⟨"S", some 3, none⟩]⟩ : ProductDoc).variants ≠ [] := by
  have h := (claim9_priceXorVariants.1 ⟨[], 0⟩
    ⟨some "p", some "c", none, some 5, some [⟨"S", some 3, none⟩], []⟩ [] 201
    ⟨"p", "c", none, none, none, [], [⟨"S", some 3, none⟩]⟩
    ⟨[(0, ⟨"p", "c", none, none, none, [], [⟨"S", some 3, none⟩]⟩)], 1⟩
    (by decide)).1 (by decide)
  exact ⟨h.1, h.2.2⟩

/-- C1: a multipart create request whose parsed variants list has length
at least two and whose two files are tagged `variant_image_0` and
`variant_image_1` saves a product whose first and second variant images
are the two uploaded URLs, for every order `sched` in which the two
uploads complete: `Promise.all` keeps results in file order, so the
outcome is the same for every permutation of the completion schedule. -/
theorem claim1_variantImageRouting (db : SimpleDB) (req : MultipartReq)
    (vs : List Variant) (u : Nat → String) (sched : List Nat)
    (hv : req.variantsField = some vs) (hlen : 2 ≤ vs.length)
    (hf : req.fileFields = ["variant_image_0", "variant_image_1"])
    (hnm : req.name.isSome) (hcat : req.category.isSome)
    (hperm : sched.Perm (List.range 2)) :
    ∃ (d : ProductDoc) (db' : SimpleDB),
      multipartCreate db req (promiseAllJoin 2 u sched) = (201, some d, db')
      ∧ d.variants[0]?.map Variant.image = some (some (u 0))
      ∧ d.variants[1]?.map Variant.image = some (some (u 1)) := by
  obtain ⟨nm, hnm'⟩ := Option.isSome_iff_exists.mp hnm
  obtain ⟨cat, hcat'⟩ := Option.isSome_iff_exists.mp hcat
  have h0 : (0 : Nat) < vs.length := by omega
  have h1 : (1 : Nat) < vs.length := by omega
  have hres : promiseAllJoin 2 u sched = [some (u 0), some (u 1)] := by
    rw [promiseAllJoin_perm 2 u sched hperm]
    rfl
  have hpa : promiseAll (promiseAllJoin 2 u sched) = some [u 0, u 1] := by
    rw [hres]
    rfl
  have hacc : routeUploads req.fileFields [u 0, u 1] [] (req.variantsField.getD [])
      = ⟨[], setVariantImage (u 1) (setVariantImage (u 0) vs 0) 1⟩ := by
    rw [hf, hv]
    show routeOne (routeOne ⟨[], vs⟩ "variant_image_0" (u 0)) "variant_image_1" (u 1)
      = ⟨[], setVariantImage (u 1) (setVariantImage (u 0) vs 0) 1⟩
    rw [routeOne_variantField ⟨[], vs⟩ "variant_image_0" (u 0) 0 (by decide)
      (by decide) (by decide) ⟨by decide, by simpa using h0⟩]
    rw [routeOne_variantField _ "variant_image_1" (u 1) 1 (by decide)
      (by decide) (by decide)
      ⟨by decide, by simpa [setVariantImage_length] using h1⟩]
    rfl
  refine
    ⟨{ name := nm, category := cat, description := req.description,
       price := if (setVariantImage (u 1) (setVariantImage (u 0) vs 0) 1).length > 0
                then none else req.price,
       img := none, images := [],
       variants := setVariantImage (u 1) (setVariantImage (u 0) vs 0) 1 },
     ⟨db.products ++
        [(db.nextId,
          { name := nm, category := cat, description := req.description,
            price := if (setVariantImage (u 1) (setVariantImage (u 0) vs 0) 1).length > 0
                     then none else req.price,
            img := none, images := [],
            variants := setVariantImage (u 1) (setVariantImage (u 0) vs 0) 1 })],
      db.nextId + 1⟩, ?_, ?_, ?_⟩
  · simp only [multipartCreate, hpa, hnm', hcat', hacc]
  · show ((setVariantImage (u 1) (setVariantImage (u 0) vs 0) 1)[0]?).map Variant.image
      = some (some (u 0))
    rw [getElem?_setVariantImage_ne (u 1) _ 1 0 (by omega),
      getElem?_setVariantImage_self (u 0) vs 0 h0,
      List.getElem?_eq_getElem h0]
    rfl
  · show ((setVariantImage (u 1) (setVariantImage (u 0) vs 0) 1)[1]?).map Variant.image
      = some (some (u 1))
    rw [getElem?_setVariantImage_self (u 1) _ 1 (by simpa [setVariantImage_length] using h1),
      getElem?_setVariantImage_ne (u 0) vs 0 1 (by omega),
      List.getElem?_eq_getElem h1]
    rfl

theorem claim1_witness :
    ∃ (d : ProductDoc) (db' : SimpleDB),
      multipartCreate ⟨[], 0⟩
        ⟨some "p", some "c", none, none,
          some [⟨"S", some 3, none⟩, ⟨"L", some 4, none⟩],
          ["variant_image_0", "variant_image_1"]⟩
        (promiseAllJoin 2 (fun i => if i = 0 then "urlA" else "urlB") [1, 0])
        = (201, some d, db')
      ∧ d.variants[0]?.map Variant.image
          = some (some ((fun i : Nat => if i = 0 then "urlA" else "urlB") 0))
      ∧ d.variants[1]?.map Variant.image
          = some (some ((fun i : Nat => if i = 0 then "urlA" else "urlB") 1)) :=
  claim1_variantImageRouting ⟨[], 0⟩
    ⟨some "p", some "c", none, none,
      some [⟨"S", some 3, none⟩, ⟨"L", some 4, none⟩],
      ["variant_image_0", "variant_image_1"]⟩
    [⟨"S", some 3, none⟩, ⟨"L", some 4, none⟩]
    (fun i => if i = 0 then "urlA" else "urlB") [1, 0]
    rfl (by decide) rfl (by decide) (by decide) (by decide)

/-- C10: an uploaded file whose field name starts with `variant_image_`
but whose parsed index does not address an existing entry of the parsed
variants list (out of range, negative, or parsed to `NaN`) is silently
ignored by both the multipart create and update handlers: the outcome
equals that of the same request with the file removed, no error is
raised, and the handler still succeeds. -/
theorem claim10_badVariantIndexIgnored :
    (∀ (db : SimpleDB) (req : MultipartReq) (urls : List String)
       (k : Nat) (f : String),
      urls.length = req.fileFields.length →
      req.fileFields[k]? = some f →
      isVariantImageField f = true →
      (∀ i : Int, parseVariantIndex f = some i →
        ¬ (0 ≤ i ∧ i.toNat < (req.variantsField.getD []).length)) →
      multipartCreate db req (urls.map some)
        = multipartCreate db { req with fileFields := req.fileFields.eraseIdx k }
            ((urls.eraseIdx k).map some)
      ∧ (req.name.isSome → req.category.isSome →
          (multipartCreate db req (urls.map some)).1 = 201))
    ∧ (∀ (db : SimpleDB) (id : Nat) (ureq : MultipartUpdateReq)
        (urls : List String) (k : Nat) (f : String),
      urls.length = ureq.fileFields.length →
      ureq.fileFields[k]? = some f →
      isVariantImageField f = true →
      (∀ i : Int, parseVariantIndex f = some i →
        ¬ (0 ≤ i ∧ i.toNat < (ureq.variantsField.getD []).length)) →
      multipartUpdate db id ureq (urls.map some)
        = multipartUpdate db id
            { ureq with fileFields := ureq.fileFields.eraseIdx k }
            ((urls.eraseIdx k).map some)
      ∧ ((db.products.find? (fun p => p.1 = id)).isSome →
          (multipartUpdate db id ureq (urls.map some)).1 = 200)) := by
  constructor
  · intro db req urls k f hlen hk hpre hbad
    have hkf : k < req.fileFields.length := by
      by_contra hcon
      rw [List.getElem?_eq_none (by omega)] at hk
      exact Option.noConfusion hk
    have hku : urls[k]? = some (urls.get ⟨k, by omega⟩) :=
      List.getElem?_eq_getElem (by omega)
    have hzip : (req.fileFields.zip urls)[k]? = some (f, urls.get ⟨k, by omega⟩) :=
      zip_getElem? _ _ k f _ hk hku
    have hacc : routeFold ⟨[], req.variantsField.getD []⟩ (req.fileFields.zip urls)
        = routeFold ⟨[], req.variantsField.getD []⟩
            ((req.fileFields.eraseIdx k).zip (urls.eraseIdx k)) := by
      rw [zip_eraseIdx req.fileFields urls k hlen.symm]
      exact routeFold_erase _ k _ f _ hzip hpre hbad
    have hpa1 : promiseAll (urls.map some) = some urls := promiseAll_map_some urls
    have hpa2 : promiseAll ((urls.eraseIdx k).map some) = some (urls.eraseIdx k) :=
      promiseAll_map_some _
    constructor
    · simp only [multipartCreate, hpa1, hpa2, routeUploads]
      simp only [hacc]
    · intro hnm hcat
      obtain ⟨nm, hnm'⟩ := Option.isSome_iff_exists.mp hnm
      obtain ⟨cat, hcat'⟩ := Option.isSome_iff_exists.mp hcat
      simp [multipartCreate, hpa1, hnm', hcat']
  · intro db id ureq urls k f hlen hk hpre hbad
    have hkf : k < ureq.fileFields.length := by
      by_contra hcon
      rw [List.getElem?_eq_none (by omega)] at hk
      exact Option.noConfusion hk
    have hku : urls[k]? = some (urls.get ⟨k, by omega⟩) :=
      List.getElem?_eq_getElem (by omega)
    have hzip : (ureq.fileFields.zip urls)[k]? = some (f, urls.get ⟨k, by omega⟩) :=
      zip_getElem? _ _ k f _ hk hku
    have hacc : routeFold
          ⟨ureq.existingImagesField.getD [], ureq.variantsField.getD []⟩
          (ureq.fileFields.zip urls)
        = routeFold
            ⟨ureq.existingImagesField.getD [], ureq.variantsField.getD []⟩
            ((ureq.fileFields.eraseIdx k).zip (urls.eraseIdx k)) := by
      rw [zip_eraseIdx ureq.fileFields urls k hlen.symm]
      exact routeFold_erase _ k _ f _ hzip hpre hbad
    have hpa1 : promiseAll (urls.map some) = some urls := promiseAll_map_some urls
    have hpa2 : promiseAll ((urls.eraseIdx k).map some) = some (urls.eraseIdx k) :=
      promiseAll_map_some _
    constructor
    · simp only [multipartUpdate, hpa1, hpa2, routeUploads]
      simp only [hacc]
      rfl
    · intro hfound
      obtain ⟨pr, hpr⟩ := Option.isSome_iff_exists.mp hfound
      simp [multipartUpdate, hpa1, hpr]

theorem claim10_witness :
    (multipartCreate ⟨[], 0⟩
        ⟨some "p", some "c", none, some 2, none, ["variant_image_0"]⟩ [some "u"]
      = multipartCreate ⟨[], 0⟩
          ⟨some "p", some "c", none, some 2, none, []⟩ [])
    ∧ (multipartCreate ⟨[], 0⟩
        ⟨some "p", some "c", none, some 2, none, ["variant_image_0"]⟩
        [some "u"]).1 = 201
    ∧ (multipartUpdate ⟨[(0, ⟨"p", "c", none, some 1, none, [], []⟩)], 1⟩ 0
        ⟨some "p", some "c", none, some 2, none, none, ["variant_image_9"]⟩
        [some "u"]).1 = 200 := by
  have h1 := claim10_badVariantIndexIgnored.1 ⟨[], 0⟩
    ⟨some "p", some "c", none, some 2, none, ["variant_image_0"]⟩ ["u"] 0
    "variant_image_0" (by decide) (by decide) (by decide)
    (by
      intro i hi
      have hpv : parseVariantIndex "variant_image_0" = some 0 := by decide
      rw [hpv] at hi
      have h0 := Option.some.inj hi
      show ¬ (0 ≤ i ∧ i.toNat < (0 : Nat))
      omega)
  have h2 := claim10_badVariantIndexIgnored.2
    ⟨[(0, ⟨"p", "c", none, some 1, none, [], []⟩)], 1⟩ 0
    ⟨some "p", some "c", none, some 2, none, none, ["variant_image_9"]⟩ ["u"] 0
    "variant_image_9" (by decide) (by decide) (by decide)
    (by
      intro i hi
      have hpv : parseVariantIndex "variant_image_9" = some 9 := by decide
      rw [hpv] at hi
      have h9 := Option.some.inj hi
      show ¬ (0 ≤ i ∧ i.toNat < (0 : Nat))
      omega)
  exact ⟨h1.1, h1.2 (by decide) (by decide), h2.2 (by decide)⟩

end Catalog
